import Mathlib

/-!
Verification of the systemd-boot-conf crate's core model:
the entry-file parser (`Entry::from_path`), the loader-policy parser
(`LoaderConf::from_path`), the current-boot match (`Entry::is_current`),
directory loading (`SystemdBootConf::load_entries`) and the write-back
operations (`overwrite_loader_conf`, `overwrite_entry_conf`, `try_io`).

Strings are Lean `String`s; machine `u32` parsing is modelled over `Nat`
with the explicit bound `2 ^ 32`.  I/O effects (existence of a path,
whether it is a regular file, the lines read from it, write outcomes)
are explicit inputs, so every definition is executable.
-/

namespace SystemdBootConf

/-- Opaque payload of a wrapped `std::io::Error` (the code never inspects
it, only stores it inside an error variant), modelled as its message. -/
abbrev IoErr := String

/-- Accumulating worker for whitespace splitting: `cur` holds the
characters of the token currently being read, in reverse. -/
def splitWSAux : List Char → List Char → List (List Char)
  | [], [] => []
  | [], c :: cur => [(c :: cur).reverse]
  | c :: cs, cur =>
    if c.isWhitespace then
      match cur with
      | [] => splitWSAux cs []
      | d :: cur' => (d :: cur').reverse :: splitWSAux cs []
    else splitWSAux cs (c :: cur)

/-- Model of Rust's `str::split_whitespace`: split on runs of whitespace,
dropping empty substrings. -/
def splitWhitespace (s : String) : List String :=
  (splitWSAux s.data []).map String.mk

/-- Model of joining strings with a single space separator, as
`itertools::join(" ")` and `slice::join(" ")` do in the source. -/
def joinSpace : List String → String
  | [] => ""
  | [s] => s
  | s :: ss => s ++ " " ++ joinSpace ss

/-- Model of `x.replace('/', "\\")` from `Entry::is_current`: the pattern
is the single character `/` and the replacement the single character `\`,
so the call is a character-for-character map. -/
def replaceSlash (s : String) : String :=
  String.mk (s.data.map fun c => if c = '/' then '\\' else c)

/-- Model of `str::parse::<u32>()`: an optional leading `+`, then at least
one base-10 digit, and the value must fit in 32 bits; anything else is a
parse failure (`none`). -/
def parseU32 (s : String) : Option Nat :=
  let cs := match s.data with
    | '+' :: rest => rest
    | cs => cs
  if cs = [] then none
  else if cs.all (fun c => c.isDigit) then
    let n := cs.foldl (fun acc c => acc * 10 + (c.toNat - 48)) 0
    if n < 2 ^ 32 then some n else none
  else none

/-- A whitespace-free, non-empty string: exactly the shape of every field
produced by `splitWhitespace`. -/
def IsToken (s : String) : Prop :=
  s.data ≠ [] ∧ ∀ c ∈ s.data, c.isWhitespace = false

instance (s : String) : Decidable (IsToken s) := by
  unfold IsToken; infer_instance

/-- Error type of the entry parser (`EntryError` in `src/entry.rs`);
the misspelt `MisisngTitle` constructor is kept verbatim. -/
inductive EntryError where
  | Line (source : IoErr)
  | MissingLinux
  | MisisngTitle
  | NotAFile
  | NoFilename
  | NoValueForInitrd
  | NoValueForLinux
  | Open (source : IoErr)
  | Utf8Filename
deriving DecidableEq

/-- Parsed boot entry (`Entry` in `src/entry.rs`). -/
structure Entry where
  id : String
  initrd : Option String
  linux : String
  options : List String
  title : String
deriving DecidableEq

/-- Entry value at the start of the parse loop: `Entry::default()` with
the `id` taken from the file stem. -/
def Entry.init (id : String) : Entry :=
  { id := id, initrd := none, linux := "", options := [], title := "" }

/-- One iteration of the parse loop of `Entry::from_path`, after the line
has been split into whitespace-separated fields: the first field is the
key; `title` rejoins the rest with single spaces, `linux`/`initrd` take
exactly the next field (failing if there is none), `options` takes all
remaining fields, and any other key (or a blank line) is ignored. -/
def Entry.parseFields (e : Entry) : List String → Except EntryError Entry
  | [] => .ok e
  | key :: rest =>
    if key = "title" then .ok { e with title := joinSpace rest }
    else if key = "linux" then
      match rest with
      | v :: _ => .ok { e with linux := v }
      | [] => .error .NoValueForLinux
    else if key = "initrd" then
      match rest with
      | v :: _ => .ok { e with initrd := some v }
      | [] => .error .NoValueForInitrd
    else if key = "options" then .ok { e with options := rest }
    else .ok e

/-- Processing of one line of an entry file: whitespace-split then
dispatch on the first field. -/
def Entry.parseLine (e : Entry) (line : String) : Except EntryError Entry :=
  Entry.parseFields e (splitWhitespace line)

/-- The `for line in BufReader::new(file).lines()` loop of
`Entry::from_path`: each element is the result of reading one line
(`.error` models an `io::Error` from the reader, wrapped as
`EntryError::Line`); the loop stops at the first failure. -/
def Entry.parseLoop (e : Entry) : List (Except IoErr String) → Except EntryError Entry
  | [] => .ok e
  | .error io :: _ => .error (.Line io)
  | .ok line :: rest =>
    match Entry.parseLine e line with
    | .ok e' => Entry.parseLoop e' rest
    | .error err => .error err

/-- Body of `Entry::from_path` after the file has been opened: run the
line loop from the default entry (with `id` set from the file stem), then
check — only after all lines are consumed — that `title` and `linux` are
non-empty. -/
def Entry.fromLines (id : String) (lines : List (Except IoErr String)) : Except EntryError Entry :=
  match Entry.parseLoop (Entry.init id) lines with
  | .error err => .error err
  | .ok entry =>
    if entry.title = "" then .error .MisisngTitle
    else if entry.linux = "" then .error .MissingLinux
    else .ok entry

/-- Outcome of `path.file_stem()` / `.to_str()` in `Entry::from_path`. -/
inductive Stem where
  | missing
  | nonUtf8
  | valid (s : String)
deriving DecidableEq

/-- Filesystem view of one candidate path, carrying exactly the facts the
code queries: its textual form (for error reporting), whether it is a
regular file, its extension, its stem, and the outcome of opening and
reading it line by line. -/
structure FsPath where
  path : String
  isFile : Bool
  ext : Option String
  stem : Stem
  openResult : Except IoErr (List (Except IoErr String))

/-- Model of `Entry::from_path`: reject non-files, extract the stem as
the id, open the file, then parse its lines. -/
def Entry.from_path (p : FsPath) : Except EntryError Entry :=
  if p.isFile then
    match p.stem with
    | .missing => .error .NoFilename
    | .nonUtf8 => .error .Utf8Filename
    | .valid id =>
      match p.openResult with
      | .error io => .error (.Open io)
      | .ok lines => Entry.fromLines id lines
  else .error .NotAFile

/-- Expected command line built inside `Entry::is_current`: the single
token `initrd=` ++ (initrd with `/` replaced by `\`) when `initrd` is
set, followed by every token of `options` in order. -/
def Entry.expectedCmdline (e : Entry) : List String :=
  (match e.initrd with
   | some x => ["initrd=" ++ replaceSlash x]
   | none => []) ++ e.options

/-- Model of `Entry::is_current`: zip the live command-line tokens with
the expected sequence and require equality at every zipped position (the
zip stops at the shorter sequence, so trailing tokens of the longer one
are never compared).  The live tokens, read from the process-wide cache
in the source, are an explicit argument here. -/
def Entry.is_current (e : Entry) (cmdline : List String) : Bool :=
  (cmdline.zip e.expectedCmdline).all fun p => p.1 == p.2

/-- Model of `kernel_cmdline`: the raw text of `/proc/cmdline`, with a
read failure (`none`) replaced by the empty string via
`unwrap_or_default`, split into whitespace-separated tokens. -/
def kernel_cmdline (raw : Option String) : List String :=
  splitWhitespace (raw.getD "")

/-- Model of `SystemdBootConf::current_entry`: the first stored entry
whose `is_current` check succeeds against the live tokens. -/
def current_entry (entries : List Entry) (cmdline : List String) : Option Entry :=
  entries.find? fun e => e.is_current cmdline

/-- Lines emitted by `SystemdBootConf::overwrite_entry_conf` (each
`writeln!` is one line): `title`, `linux`, then `initrd` only if set,
then `options: ` ++ the space-joined options only if non-empty — note
the literal colon after `options`. -/
def Entry.serializeLines (e : Entry) : List String :=
  ["title " ++ e.title, "linux " ++ e.linux]
  ++ (match e.initrd with
      | some i => ["initrd " ++ i]
      | none => [])
  ++ (match e.options with
      | [] => []
      | _ :: _ => ["options: " ++ joinSpace e.options])

/-- Error type of the loader parser (`LoaderError` in `src/loader.rs`). -/
inductive LoaderError where
  | Line (source : IoErr)
  | NotAFile
  | NoValueForDefault
  | NoValueForTimeout
  | Open (source : IoErr)
  | TimeoutNaN (raw : String)
deriving DecidableEq

/-- Parsed loader policy (`LoaderConf` in `src/loader.rs`); `timeout` is
a `u32` in the source, modelled as a `Nat` below `2 ^ 32`. -/
structure LoaderConf where
  default : Option String := none
  timeout : Option Nat := none
deriving DecidableEq

/-- One iteration of the parse loop of `LoaderConf::from_path`, after
whitespace splitting: `default` takes the next field, `timeout` parses
the next field as a `u32` (failing with `TimeoutNaN` carrying the raw
field on a parse failure), and other keys and blank lines are ignored. -/
def LoaderConf.parseFields (lc : LoaderConf) : List String → Except LoaderError LoaderConf
  | [] => .ok lc
  | key :: rest =>
    if key = "default" then
      match rest with
      | v :: _ => .ok { lc with default := some v }
      | [] => .error .NoValueForDefault
    else if key = "timeout" then
      match rest with
      | t :: _ =>
        match parseU32 t with
        | some n => .ok { lc with timeout := some n }
        | none => .error (.TimeoutNaN t)
      | [] => .error .NoValueForTimeout
    else .ok lc

/-- Processing of one line of the loader file. -/
def LoaderConf.parseLine (lc : LoaderConf) (line : String) : Except LoaderError LoaderConf :=
  LoaderConf.parseFields lc (splitWhitespace line)

/-- The line-reading loop of `LoaderConf::from_path`. -/
def LoaderConf.parseLoop (lc : LoaderConf) : List (Except IoErr String) → Except LoaderError LoaderConf
  | [] => .ok lc
  | .error io :: _ => .error (.Line io)
  | .ok line :: rest =>
    match LoaderConf.parseLine lc line with
    | .ok lc' => LoaderConf.parseLoop lc' rest
    | .error err => .error err

/-- Filesystem view of the loader path: `path.exists()`, `path.is_file()`
and the outcome of opening and reading it. -/
structure LoaderPath where
  pathExists : Bool
  isFile : Bool
  openResult : Except IoErr (List (Except IoErr String))

/-- Model of `LoaderConf::from_path`: a missing path yields the default
record (not an error); an existing non-file fails with `NotAFile`; else
the file is opened and parsed line by line. -/
def LoaderConf.from_path (p : LoaderPath) : Except LoaderError LoaderConf :=
  if p.pathExists then
    if p.isFile then
      match p.openResult with
      | .error io => .error (.Open io)
      | .ok lines => LoaderConf.parseLoop {} lines
    else .error .NotAFile
  else .ok {}

/-- Error type of the orchestrator (`Error` in `src/lib.rs`); path
payloads are the textual paths. -/
inductive Error where
  | EntriesDir (source : IoErr)
  | Entry (path : String) (source : EntryError)
  | EntryWrite (source : IoErr)
  | FileEntry (source : IoErr)
  | Loader (path : String) (source : LoaderError)
  | LoaderWrite (source : IoErr)
  | NotFound
deriving DecidableEq

/-- The filter of `load_entries`: a directory item is parsed only when it
is a regular file whose extension is exactly `conf` (the source skips on
the negation `!path.is_file() || path.extension().map_or(true, |ext| ext != "conf")`). -/
def considered (p : FsPath) : Bool :=
  p.isFile && (match p.ext with
               | some e => e == "conf"
               | none => false)

/-- The `for entry in dir_entries` loop of `load_entries`: each item is
the result of one `read_dir` iteration step (`.error` models an
`io::Error` from the iterator, wrapped as `Error::FileEntry`); skipped
items leave the accumulator unchanged; a malformed considered file aborts
with `Error::Entry` wrapping its path and cause; parsed entries are
pushed in order. -/
def loadLoop (acc : List Entry) : List (Except IoErr FsPath) → List Entry × Except Error Unit
  | [] => (acc, .ok ())
  | .error e :: _ => (acc, .error (.FileEntry e))
  | .ok p :: rest =>
    if considered p then
      match Entry.from_path p with
      | .error src => (acc, .error (.Entry p.path src))
      | .ok en => loadLoop (acc ++ [en]) rest
    else loadLoop acc rest

/-- Model of `SystemdBootConf::load_entries`.  `prior` is the value of
`self.entries` on entry; the result pairs the final value of
`self.entries` with the returned `Result`.  Note the order in the
source: `read_dir` is consulted *before* `entries.clear()`, so a
directory-open failure leaves the prior entries in place. -/
def load_entries (prior : List Entry) (dir : Except IoErr (List (Except IoErr FsPath))) :
    List Entry × Except Error Unit :=
  match dir with
  | .error e => (prior, .error (.EntriesDir e))
  | .ok items => loadLoop [] items

/-- Outcomes of the three I/O phases of a write-back through `try_io`:
`File::create`, the buffered writes performed by the instruction closure,
and the flush of the `BufWriter` when it is dropped. -/
structure WriteWorld where
  createResult : Except IoErr Unit
  writeResult : Except IoErr Unit
  flushResult : Except IoErr Unit

/-- Model of `SystemdBootConf::try_io`, i.e.
`instructions(&mut BufWriter::new(File::create(path)?))`: a create
failure propagates, then the closure's buffered writes decide the
result.  The `BufWriter` is a temporary that is dropped without an
explicit `flush()`; per the standard library, errors that happen while
flushing during drop are ignored, so `flushResult` does not influence
the returned value. -/
def try_io (w : WriteWorld) : Except IoErr Unit :=
  match w.createResult with
  | .error e => .error e
  | .ok _ => w.writeResult

/-- Model of `SystemdBootConf::overwrite_loader_conf`: run `try_io` and
wrap any failure as `Error::LoaderWrite`. -/
def overwrite_loader_conf (w : WriteWorld) : Except Error Unit :=
  Except.mapError Error.LoaderWrite (try_io w)

/-- Model of `SystemdBootConf::overwrite_entry_conf`: look the entry up
by id (failing with `Error::NotFound`), then run `try_io` and wrap any
failure as `Error::EntryWrite`. -/
def overwrite_entry_conf (entries : List Entry) (name : String) (w : WriteWorld) :
    Except Error Unit :=
  match entries.find? (fun e => e.id == name) with
  | none => .error .NotFound
  | some _ => Except.mapError Error.EntryWrite (try_io w)

end SystemdBootConf

namespace SystemdBootConf

lemma mk_data (s : String) : String.mk s.data = s := by
  cases s; rfl

lemma data_append (a b : String) : (a ++ b).data = a.data ++ b.data := by
  cases a; cases b; rfl

lemma eq_of_data_eq {a b : String} (h : a.data = b.data) : a = b := by
  cases a; cases b; exact congrArg String.mk h

lemma splitWSAux_cons (c : Char) (cs cur : List Char) :
    splitWSAux (c :: cs) cur
      = if c.isWhitespace then
          (match cur with
           | [] => splitWSAux cs []
           | d :: cur' => (d :: cur').reverse :: splitWSAux cs [])
        else splitWSAux cs (c :: cur) := rfl

lemma splitWSAux_nil_of_ne (cur : List Char) (h : cur ≠ []) :
    splitWSAux [] cur = [cur.reverse] := by
  cases cur with
  | nil => exact absurd rfl h
  | cons c cur' => rfl

lemma splitWSAux_ws_cons {c : Char} (hw : c.isWhitespace = true) (cs cur : List Char)
    (h : cur ≠ []) : splitWSAux (c :: cs) cur = cur.reverse :: splitWSAux cs [] := by
  cases cur with
  | nil => exact absurd rfl h
  | cons d cur' => rw [splitWSAux_cons, if_pos hw]

lemma splitWSAux_token_prefix (t : List Char) (h : ∀ c ∈ t, c.isWhitespace = false) :
    ∀ cs cur, splitWSAux (t ++ cs) cur = splitWSAux cs (t.reverse ++ cur) := by
  induction t with
  | nil => intro cs cur; simp
  | cons c t' ih =>
    intro cs cur
    have hc : c.isWhitespace = false := h c (List.mem_cons_self c t')
    have ht' : ∀ d ∈ t', d.isWhitespace = false := fun d hd => h d (List.mem_cons_of_mem c hd)
    show splitWSAux (c :: (t' ++ cs)) cur = _
    rw [splitWSAux_cons, if_neg (by simp [hc]), ih ht' cs (c :: cur)]
    simp

lemma splitWSAux_tokens (cs : List Char) :
    ∀ cur, (∀ c ∈ cur, c.isWhitespace = false) →
    ∀ l ∈ splitWSAux cs cur, l ≠ [] ∧ ∀ c ∈ l, c.isWhitespace = false := by
  induction cs with
  | nil =>
    intro cur hcur l hl
    cases cur with
    | nil => simp [splitWSAux] at hl
    | cons d cur' =>
      replace hl : l ∈ [(d :: cur').reverse] := hl
      simp only [List.mem_singleton] at hl
      subst hl
      refine ⟨by simp, fun c hc => hcur c ?_⟩
      simpa using (List.mem_reverse.mp hc)
  | cons c cs' ih =>
    intro cur hcur l hl
    by_cases hw : c.isWhitespace
    · cases cur with
      | nil =>
        rw [splitWSAux_cons, if_pos hw] at hl
        exact ih [] (by simp) l hl
      | cons d cur' =>
        rw [splitWSAux_cons, if_pos hw] at hl
        replace hl : l ∈ (d :: cur').reverse :: splitWSAux cs' [] := hl
        rcases List.mem_cons.mp hl with h1 | h2
        · subst h1
          refine ⟨by simp, fun x hx => hcur x ?_⟩
          simpa using (List.mem_reverse.mp hx)
        · exact ih [] (by simp) l h2
    · rw [splitWSAux_cons, if_neg hw] at hl
      refine ih (c :: cur) ?_ l hl
      intro x hx
      rcases List.mem_cons.mp hx with h1 | h2
      · subst h1; simpa using hw
      · exact hcur x h2

lemma splitWhitespace_tokens (s : String) : ∀ t ∈ splitWhitespace s, IsToken t := by
  intro t ht
  simp only [splitWhitespace, List.mem_map] at ht
  obtain ⟨l, hl, rfl⟩ := ht
  obtain ⟨hne, hws⟩ := splitWSAux_tokens s.data [] (by simp) l hl
  exact ⟨hne, hws⟩

lemma join_split : ∀ ts : List String, (∀ s ∈ ts, IsToken s) →
    splitWhitespace (joinSpace ts) = ts := by
  intro ts
  induction ts with
  | nil => intro; rfl
  | cons s rest ih =>
    intro hts
    obtain ⟨hs_ne, hs_ws⟩ : IsToken s := hts s (List.mem_cons_self s rest)
    have hrev_ne : s.data.reverse ≠ [] := by simpa using hs_ne
    cases rest with
    | nil =>
      have h1 : splitWSAux s.data [] = [s.data] := by
        have h2 := splitWSAux_token_prefix s.data hs_ws [] []
        simp only [List.append_nil] at h2
        rw [h2, splitWSAux_nil_of_ne _ hrev_ne, List.reverse_reverse]
      show (splitWSAux (joinSpace [s]).data []).map String.mk = [s]
      show (splitWSAux s.data []).map String.mk = [s]
      rw [h1]
      simp [mk_data]
    | cons r rest' =>
      have hrest : ∀ x ∈ r :: rest', IsToken x := fun x hx => hts x (List.mem_cons_of_mem s hx)
      have hdata : (joinSpace (s :: r :: rest')).data
          = s.data ++ (' ' :: (joinSpace (r :: rest')).data) := by
        show (s ++ " " ++ joinSpace (r :: rest')).data = _
        rw [data_append, data_append]
        simp
      have h2 := splitWSAux_token_prefix s.data hs_ws (' ' :: (joinSpace (r :: rest')).data) []
      rw [List.append_nil] at h2
      have ihr := ih hrest
      simp only [splitWhitespace] at ihr
      show (splitWSAux (joinSpace (s :: r :: rest')).data []).map String.mk = s :: r :: rest'
      rw [hdata, h2, splitWSAux_ws_cons (by decide) _ _ hrev_ne, List.reverse_reverse,
        List.map_cons, mk_data, ihr]

lemma zipAll_iff : ∀ (a b : List String),
    (((a.zip b).all fun p => p.1 == p.2) = true
      ↔ ∀ (i : Nat) (h1 : i < a.length) (h2 : i < b.length), a.get ⟨i, h1⟩ = b.get ⟨i, h2⟩) := by
  intro a
  induction a with
  | nil =>
    intro b
    constructor
    · intro _ i h1 h2; exact absurd h1 (Nat.not_lt_zero i)
    · intro _; rfl
  | cons x a' ih =>
    intro b
    cases b with
    | nil =>
      constructor
      · intro _ i h1 h2; exact absurd h2 (Nat.not_lt_zero i)
      · intro _; rfl
    | cons y b' =>
      constructor
      · intro h i h1 h2
        rw [List.zip_cons_cons, List.all_cons, Bool.and_eq_true] at h
        match i with
        | 0 => exact beq_iff_eq.mp h.1
        | Nat.succ j =>
          exact (ih b').mp h.2 j (Nat.lt_of_succ_lt_succ h1) (Nat.lt_of_succ_lt_succ h2)
      · intro h
        rw [List.zip_cons_cons, List.all_cons, Bool.and_eq_true]
        refine ⟨beq_iff_eq.mpr (h 0 (Nat.succ_pos _) (Nat.succ_pos _)), (ih b').mpr ?_⟩
        intro j hj1 hj2
        exact h (j + 1) (Nat.succ_lt_succ hj1) (Nat.succ_lt_succ hj2)

end SystemdBootConf

namespace SystemdBootConf

/-- Shape invariant maintained by the entry parse loop: every stored
field is built from whitespace-free fields of `splitWhitespace`, so
`title` is a single-space join of tokens, `linux` is empty or a token,
`initrd` is unset or a token, and every option is a token. -/
structure EntryInv (e : Entry) : Prop where
  title_join : ∃ ts, (∀ s ∈ ts, IsToken s) ∧ e.title = joinSpace ts
  linux_tok : e.linux = "" ∨ IsToken e.linux
  initrd_tok : e.initrd = none ∨ ∃ t, IsToken t ∧ e.initrd = some t
  options_tok : ∀ s ∈ e.options, IsToken s

lemma init_inv (id : String) : EntryInv (Entry.init id) :=
  ⟨⟨[], by simp, rfl⟩, Or.inl rfl, Or.inl rfl, by simp [Entry.init]⟩

lemma parseFields_inv (e : Entry) (fs : List String) (hfs : ∀ s ∈ fs, IsToken s) (e' : Entry)
    (h : Entry.parseFields e fs = .ok e') (he : EntryInv e) : EntryInv e' := by
  cases fs with
  | nil =>
    simp only [Entry.parseFields] at h
    cases h
    exact he
  | cons key rest =>
    have hrest : ∀ s ∈ rest, IsToken s := fun s hs => hfs s (List.mem_cons_of_mem key hs)
    simp only [Entry.parseFields] at h
    by_cases h1 : key = "title"
    · rw [if_pos h1] at h
      cases h
      exact ⟨⟨rest, hrest, rfl⟩, he.linux_tok, he.initrd_tok, he.options_tok⟩
    · rw [if_neg h1] at h
      by_cases h2 : key = "linux"
      · rw [if_pos h2] at h
        cases rest with
        | nil => simp at h
        | cons v vs =>
          cases h
          exact ⟨he.title_join, Or.inr (hrest v (List.mem_cons_self v vs)),
            he.initrd_tok, he.options_tok⟩
      · rw [if_neg h2] at h
        by_cases h3 : key = "initrd"
        · rw [if_pos h3] at h
          cases rest with
          | nil => simp at h
          | cons v vs =>
            cases h
            exact ⟨he.title_join, he.linux_tok,
              Or.inr ⟨v, hrest v (List.mem_cons_self v vs), rfl⟩, he.options_tok⟩
        · rw [if_neg h3] at h
          by_cases h4 : key = "options"
          · rw [if_pos h4] at h
            cases h
            exact ⟨he.title_join, he.linux_tok, he.initrd_tok, hrest⟩
          · rw [if_neg h4] at h
            cases h
            exact he

lemma parseLine_inv (e : Entry) (line : String) (e' : Entry)
    (h : Entry.parseLine e line = .ok e') (he : EntryInv e) : EntryInv e' :=
  parseFields_inv e (splitWhitespace line) (splitWhitespace_tokens line) e' h he

lemma parseLoop_inv (lines : List (Except IoErr String)) :
    ∀ e e', EntryInv e → Entry.parseLoop e lines = .ok e' → EntryInv e' := by
  induction lines with
  | nil =>
    intro e e' he h
    simp only [Entry.parseLoop] at h
    cases h
    exact he
  | cons x rest ih =>
    intro e e' he h
    cases x with
    | error io => simp [Entry.parseLoop] at h
    | ok line =>
      simp only [Entry.parseLoop] at h
      cases hp : Entry.parseLine e line with
      | error err => rw [hp] at h; simp at h
      | ok e1 =>
        rw [hp] at h
        exact ih e1 e' (parseLine_inv e line e1 hp he) h

lemma parseFields_id (e : Entry) (fs : List String) (e' : Entry)
    (h : Entry.parseFields e fs = .ok e') : e'.id = e.id := by
  cases fs with
  | nil => simp only [Entry.parseFields] at h; cases h; rfl
  | cons key rest =>
    simp only [Entry.parseFields] at h
    by_cases h1 : key = "title"
    · rw [if_pos h1] at h; cases h; rfl
    · rw [if_neg h1] at h
      by_cases h2 : key = "linux"
      · rw [if_pos h2] at h
        cases rest with
        | nil => simp at h
        | cons v vs => cases h; rfl
      · rw [if_neg h2] at h
        by_cases h3 : key = "initrd"
        · rw [if_pos h3] at h
          cases rest with
          | nil => simp at h
          | cons v vs => cases h; rfl
        · rw [if_neg h3] at h
          by_cases h4 : key = "options"
          · rw [if_pos h4] at h; cases h; rfl
          · rw [if_neg h4] at h; cases h; rfl

lemma parseLoop_id (lines : List (Except IoErr String)) :
    ∀ e e', Entry.parseLoop e lines = .ok e' → e'.id = e.id := by
  induction lines with
  | nil => intro e e' h; simp only [Entry.parseLoop] at h; cases h; rfl
  | cons x rest ih =>
    intro e e' h
    cases x with
    | error io => simp [Entry.parseLoop] at h
    | ok line =>
      simp only [Entry.parseLoop] at h
      cases hp : Entry.parseLine e line with
      | error err => rw [hp] at h; simp at h
      | ok e1 =>
        rw [hp] at h
        rw [ih e1 e' h, parseFields_id e (splitWhitespace line) e1 hp]

lemma fromLines_ok (id : String) (lines : List (Except IoErr String)) (e : Entry)
    (h : Entry.fromLines id lines = .ok e) :
    EntryInv e ∧ e.title ≠ "" ∧ e.linux ≠ "" ∧ e.id = id := by
  unfold Entry.fromLines at h
  cases hp : Entry.parseLoop (Entry.init id) lines with
  | error err => rw [hp] at h; cases h
  | ok en =>
    rw [hp] at h
    replace h : (if en.title = "" then Except.error EntryError.MisisngTitle
        else if en.linux = "" then Except.error EntryError.MissingLinux
        else Except.ok en) = Except.ok e := h
    by_cases h1 : en.title = ""
    · rw [if_pos h1] at h; cases h
    · rw [if_neg h1] at h
      by_cases h2 : en.linux = ""
      · rw [if_pos h2] at h; cases h
      · rw [if_neg h2] at h
        cases h
        exact ⟨parseLoop_inv lines (Entry.init id) e (init_inv id) hp, h1, h2,
          parseLoop_id lines (Entry.init id) e hp⟩

lemma parseLoop_step (e e' : Entry) (line : String) (rest : List (Except IoErr String))
    (h : Entry.parseLine e line = .ok e') :
    Entry.parseLoop e (.ok line :: rest) = Entry.parseLoop e' rest := by
  simp only [Entry.parseLoop, h]

lemma parseLine_title (e : Entry) (ts : List String) (hts : ∀ s ∈ ts, IsToken s)
    (hne : ts ≠ []) :
    Entry.parseLine e ("title " ++ joinSpace ts) = .ok { e with title := joinSpace ts } := by
  have hkey : ("title " ++ joinSpace ts) = joinSpace ("title" :: ts) := by
    cases ts with
    | nil => exact absurd rfl hne
    | cons a r =>
      apply eq_of_data_eq
      show ("title " ++ joinSpace (a :: r)).data = ("title" ++ " " ++ joinSpace (a :: r)).data
      rw [data_append, data_append, data_append]
      rfl
  have htoks : ∀ s ∈ "title" :: ts, IsToken s := by
    intro s hs
    rcases List.mem_cons.mp hs with h1 | h2
    · subst h1; decide
    · exact hts s h2
  rw [Entry.parseLine, hkey, join_split ("title" :: ts) htoks]
  rfl

lemma parseLine_linux (e : Entry) (v : String) (hv : IsToken v) :
    Entry.parseLine e ("linux " ++ v) = .ok { e with linux := v } := by
  have hkey : ("linux " ++ v) = joinSpace ["linux", v] := by
    apply eq_of_data_eq
    show ("linux " ++ v).data = ("linux" ++ " " ++ v).data
    rw [data_append, data_append, data_append]
    rfl
  have htoks : ∀ s ∈ ["linux", v], IsToken s := by
    intro s hs
    rcases List.mem_cons.mp hs with h1 | h2
    · subst h1; decide
    · simp only [List.mem_singleton] at h2; subst h2; exact hv
  rw [Entry.parseLine, hkey, join_split ["linux", v] htoks]
  rfl

lemma parseLine_initrd (e : Entry) (v : String) (hv : IsToken v) :
    Entry.parseLine e ("initrd " ++ v) = .ok { e with initrd := some v } := by
  have hkey : ("initrd " ++ v) = joinSpace ["initrd", v] := by
    apply eq_of_data_eq
    show ("initrd " ++ v).data = ("initrd" ++ " " ++ v).data
    rw [data_append, data_append, data_append]
    rfl
  have htoks : ∀ s ∈ ["initrd", v], IsToken s := by
    intro s hs
    rcases List.mem_cons.mp hs with h1 | h2
    · subst h1; decide
    · simp only [List.mem_singleton] at h2; subst h2; exact hv
  rw [Entry.parseLine, hkey, join_split ["initrd", v] htoks]
  rfl

lemma parseLine_optcolon (e : Entry) (opts : List String) (hopts : ∀ s ∈ opts, IsToken s)
    (hne : opts ≠ []) :
    Entry.parseLine e ("options: " ++ joinSpace opts) = .ok e := by
  have hkey : ("options: " ++ joinSpace opts) = joinSpace ("options:" :: opts) := by
    cases opts with
    | nil => exact absurd rfl hne
    | cons a r =>
      apply eq_of_data_eq
      show ("options: " ++ joinSpace (a :: r)).data = ("options:" ++ " " ++ joinSpace (a :: r)).data
      rw [data_append, data_append, data_append]
      rfl
  have htoks : ∀ s ∈ "options:" :: opts, IsToken s := by
    intro s hs
    rcases List.mem_cons.mp hs with h1 | h2
    · subst h1; decide
    · exact hopts s h2
  rw [Entry.parseLine, hkey, join_split ("options:" :: opts) htoks]
  rfl

end SystemdBootConf

namespace SystemdBootConf

/-- Decides whether an entry parse succeeded. -/
def isOkE : Except EntryError Entry → Bool
  | .ok _ => true
  | .error _ => false

/-- A directory item that does not abort the load: its enumeration step
succeeded, and it is either skipped by the conf-file filter or parses
successfully. -/
def itemOk : Except IoErr FsPath → Bool
  | .error _ => false
  | .ok p => !considered p || isOkE (Entry.from_path p)

/-- Entries contributed by a list of directory items: parses of the
considered items, in order. -/
def itemEntries : List (Except IoErr FsPath) → List Entry
  | [] => []
  | .error _ :: rest => itemEntries rest
  | .ok p :: rest =>
    if considered p then
      match Entry.from_path p with
      | .ok en => en :: itemEntries rest
      | .error _ => itemEntries rest
    else itemEntries rest

lemma loadLoop_spec (p : FsPath) (err : EntryError) (items2 : List (Except IoErr FsPath))
    (hp : considered p = true) (herr : Entry.from_path p = .error err) :
    ∀ (items1 : List (Except IoErr FsPath)) (acc : List Entry), items1.all itemOk = true →
    loadLoop acc (items1 ++ .ok p :: items2)
      = (acc ++ itemEntries items1, .error (.Entry p.path err)) := by
  intro items1
  induction items1 with
  | nil =>
    intro acc _
    show loadLoop acc (.ok p :: items2) = (acc ++ itemEntries [], .error (.Entry p.path err))
    simp only [loadLoop, itemEntries, if_pos hp, herr, List.append_nil]
  | cons x items1' ih =>
    intro acc hall
    rw [List.all_cons, Bool.and_eq_true] at hall
    obtain ⟨hx, hrest⟩ := hall
    cases x with
    | error io => simp [itemOk] at hx
    | ok q =>
      by_cases hq : considered q = true
      · have hok : isOkE (Entry.from_path q) = true := by
          simp only [itemOk, hq] at hx
          simpa using hx
        cases hfp : Entry.from_path q with
        | error e2 => rw [hfp] at hok; simp [isOkE] at hok
        | ok en =>
          show loadLoop acc (.ok q :: (items1' ++ .ok p :: items2)) = _
          rw [loadLoop, if_pos hq, hfp]
          show loadLoop (acc ++ [en]) (items1' ++ .ok p :: items2) = _
          rw [ih (acc ++ [en]) hrest]
          simp only [itemEntries, if_pos hq, hfp, List.append_assoc, List.singleton_append]
      · show loadLoop acc (.ok q :: (items1' ++ .ok p :: items2)) = _
        rw [loadLoop, if_neg hq, ih acc hrest]
        simp only [itemEntries, if_neg hq]

end SystemdBootConf

namespace SystemdBootConf

/-- C1: `is_current` builds the expected sequence (the single
`initrd=`-prefixed token with `/` mapped to `\` when `initrd` is set,
then every option in order) and returns true iff the live tokens and the
expected sequence agree position by position up to the length of the
shorter sequence, starting at position 0; trailing tokens of the longer
sequence are never compared.  In particular the live line
`["root=/dev/sda1", "initrd=\boot\initrd.img", "quiet"]` does not match
the entry with initrd `/boot/initrd.img` and options `["quiet"]`,
because position 0 already disagrees. -/
theorem claim_C1_is_current_prefix_semantics :
    (∀ (e : Entry) (cmdline : List String),
      e.is_current cmdline = true
        ↔ ∀ (i : Nat) (h1 : i < cmdline.length) (h2 : i < e.expectedCmdline.length),
            cmdline.get ⟨i, h1⟩ = e.expectedCmdline.get ⟨i, h2⟩)
    ∧ (∀ (id linux title x : String) (opts : List String),
        Entry.expectedCmdline ⟨id, some x, linux, opts, title⟩
          = ("initrd=" ++ String.mk (x.data.map fun c => if c = '/' then '\\' else c)) :: opts)
    ∧ (∀ (id linux title : String) (opts : List String),
        Entry.expectedCmdline ⟨id, none, linux, opts, title⟩ = opts)
    ∧ Entry.is_current ⟨"pop", some "/boot/initrd.img", "vmlinuz", ["quiet"], "Pop"⟩
        ["root=/dev/sda1", "initrd=\\boot\\initrd.img", "quiet"] = false :=
  ⟨fun e cmdline => zipAll_iff cmdline e.expectedCmdline,
   fun _ _ _ _ _ => rfl, fun _ _ _ _ => rfl, by decide⟩

/-- Closed instantiation of C1: an entry whose expected sequence is empty
is current against any live line, via the positional characterization. -/
theorem claim_C1_witness :
    Entry.is_current ⟨"w", none, "vmlinuz", [], "t"⟩ ["root=/dev/sda1"] = true :=
  (claim_C1_is_current_prefix_semantics.1 ⟨"w", none, "vmlinuz", [], "t"⟩ ["root=/dev/sda1"]).mpr
    (fun i _ h2 => absurd h2 (Nat.not_lt_zero i))

/-- C3: every success of the entry parser has non-empty `title` and
`linux`, and those two checks run only after the whole file is consumed —
a grammar error on a later line (here a `linux` key with no value on
line 5) is reported even though `title` was satisfied on line 1. -/
theorem claim_C3_required_fields :
    (∀ (id : String) (lines : List (Except IoErr String)) (e : Entry),
        Entry.fromLines id lines = .ok e → e.title ≠ "" ∧ e.linux ≠ "")
    ∧ Entry.fromLines "demo"
        [.ok "title Pop OS", .ok "version 1", .ok "", .ok "sort-key pop", .ok "linux"]
        = .error .NoValueForLinux := by
  constructor
  · intro id lines e h
    obtain ⟨_, h1, h2, _⟩ := fromLines_ok id lines e h
    exact ⟨h1, h2⟩
  · rfl

/-- Closed instantiation of C3 at a concrete two-line entry file. -/
theorem claim_C3_witness :
    (⟨"demo", none, "vmlinuz", [], "Pop"⟩ : Entry).title ≠ ""
    ∧ (⟨"demo", none, "vmlinuz", [], "Pop"⟩ : Entry).linux ≠ "" :=
  claim_C3_required_fields.1 "demo" [.ok "title Pop", .ok "linux vmlinuz"]
    ⟨"demo", none, "vmlinuz", [], "Pop"⟩ (by rfl)

/-- C4: loader parsing of a nonexistent path returns the default record
(no `default`, no `timeout`) and is not an error, whatever the rest of
the filesystem view says; a path that exists but is not a regular file
fails with the `NotAFile` kind. -/
theorem claim_C4_loader_missing_path :
    (∀ (b : Bool) (o : Except IoErr (List (Except IoErr String))),
        LoaderConf.from_path ⟨false, b, o⟩ = .ok { default := none, timeout := none })
    ∧ (∀ o : Except IoErr (List (Except IoErr String)),
        LoaderConf.from_path ⟨true, false, o⟩ = .error .NotAFile) :=
  ⟨fun _ _ => rfl, fun _ => rfl⟩

/-- C5: a `timeout` line whose next field does not parse as a
non-negative base-10 `u32` fails with `TimeoutNaN` carrying that raw
field; a `timeout` line with no following field fails with
`NoValueForTimeout`; a parsable value is stored.  Concretely a loader
file consisting of `timeout abc` fails carrying `"abc"`. -/
theorem claim_C5_timeout_parsing :
    (∀ (lc : LoaderConf) (line t : String) (rest : List String),
        splitWhitespace line = "timeout" :: t :: rest → parseU32 t = none →
        LoaderConf.parseLine lc line = .error (.TimeoutNaN t))
    ∧ (∀ (lc : LoaderConf) (line : String),
        splitWhitespace line = ["timeout"] →
        LoaderConf.parseLine lc line = .error .NoValueForTimeout)
    ∧ (∀ (lc : LoaderConf) (line t : String) (rest : List String) (n : Nat),
        splitWhitespace line = "timeout" :: t :: rest → parseU32 t = some n →
        LoaderConf.parseLine lc line = .ok { lc with timeout := some n })
    ∧ LoaderConf.from_path ⟨true, true, .ok [.ok "timeout abc"]⟩
        = .error (.TimeoutNaN "abc") := by
  refine ⟨?_, ?_, ?_, by rfl⟩
  · intro lc line t rest hs hp
    rw [LoaderConf.parseLine, hs]
    simp only [LoaderConf.parseFields]
    rw [if_neg (by decide : ¬("timeout" : String) = "default"), if_pos trivial]
    show (match parseU32 t with
          | some n => Except.ok { lc with timeout := some n }
          | none => Except.error (LoaderError.TimeoutNaN t))
        = Except.error (LoaderError.TimeoutNaN t)
    rw [hp]
  · intro lc line hs
    rw [LoaderConf.parseLine, hs]
    rfl
  · intro lc line t rest n hs hp
    rw [LoaderConf.parseLine, hs]
    simp only [LoaderConf.parseFields]
    rw [if_neg (by decide : ¬("timeout" : String) = "default"), if_pos trivial]
    show (match parseU32 t with
          | some n => Except.ok { lc with timeout := some n }
          | none => Except.error (LoaderError.TimeoutNaN t))
        = Except.ok { lc with timeout := some n }
    rw [hp]

/-- Closed instantiation of C5 at the three concrete lines
`timeout abc`, `timeout`, and `timeout 5`. -/
theorem claim_C5_witness :
    LoaderConf.parseLine {} "timeout abc" = .error (.TimeoutNaN "abc")
    ∧ LoaderConf.parseLine {} "timeout" = .error .NoValueForTimeout
    ∧ LoaderConf.parseLine {} "timeout 5" = .ok { default := none, timeout := some 5 } :=
  ⟨claim_C5_timeout_parsing.1 {} "timeout abc" "abc" [] (by rfl) (by rfl),
   claim_C5_timeout_parsing.2.1 {} "timeout" (by rfl),
   claim_C5_timeout_parsing.2.2.1 {} "timeout 5" "5" [] 5 (by rfl) (by rfl)⟩

end SystemdBootConf

namespace SystemdBootConf

/-- C9: an entry with no initrd and empty options has an empty expected
sequence and is current against every live line; an empty live line (as
produced when the command-line source is unreadable and the cache holds
empty content) makes every entry current; and the current-entry lookup
returns the first matching entry — the head of the collection when the
live line is empty, and the first described entry when no earlier entry
matches. -/
theorem claim_C9_empty_expected_matches :
    (∀ (cmdline : List String) (e : Entry), e.initrd = none → e.options = [] →
        e.is_current cmdline = true)
    ∧ (∀ e : Entry, e.is_current (kernel_cmdline none) = true)
    ∧ (∀ (entries : List Entry) (cmdline : List String), cmdline = [] →
        current_entry entries cmdline = entries.head?)
    ∧ (∀ (pre : List Entry) (e : Entry) (post : List Entry) (cmdline : List String),
        (∀ x ∈ pre, x.is_current cmdline = false) → e.initrd = none → e.options = [] →
        current_entry (pre ++ e :: post) cmdline = some e) := by
  have hcur : ∀ (cmdline : List String) (e : Entry), e.initrd = none → e.options = [] →
      e.is_current cmdline = true := by
    intro cmdline e h1 h2
    simp [Entry.is_current, Entry.expectedCmdline, h1, h2]
  refine ⟨hcur, fun e => rfl, ?_, ?_⟩
  · intro entries cmdline hc
    subst hc
    cases entries with
    | nil => rfl
    | cons a l =>
      show List.find? (fun e => e.is_current []) (a :: l) = some a
      rw [List.find?_cons_of_pos _ (by rfl)]
  · intro pre e post cmdline hpre h1 h2
    induction pre with
    | nil => exact List.find?_cons_of_pos _ (hcur cmdline e h1 h2)
    | cons a pre' ih =>
      exact (List.find?_cons_of_neg _ (by simp [hpre a (List.mem_cons_self a pre')])).trans
        (ih fun x hx => hpre x (List.mem_cons_of_mem a hx))

/-- Closed instantiation of C9: a collection whose first element does not
match and whose second has empty expected sequence yields the second. -/
theorem claim_C9_witness :
    current_entry [⟨"a", some "/i", "l", [], "A"⟩, ⟨"b", none, "l", [], "B"⟩] ["root=x"]
      = some ⟨"b", none, "l", [], "B"⟩ :=
  claim_C9_empty_expected_matches.2.2.2 [⟨"a", some "/i", "l", [], "A"⟩]
    ⟨"b", none, "l", [], "B"⟩ [] ["root=x"]
    (by intro x hx; simp only [List.mem_singleton] at hx; subst hx; rfl) rfl rfl

lemma loadLoop_ok_all : ∀ (items : List (Except IoErr FsPath)) (acc : List Entry),
    (loadLoop acc items).2 = .ok () → items.all itemOk = true := by
  intro items
  induction items with
  | nil => intro acc _; rfl
  | cons x rest ih =>
    intro acc h
    cases x with
    | error io => simp [loadLoop] at h
    | ok p =>
      rw [List.all_cons, Bool.and_eq_true]
      by_cases hp : considered p = true
      · cases hfp : Entry.from_path p with
        | error err =>
          rw [loadLoop, if_pos hp, hfp] at h
          simp at h
        | ok en =>
          rw [loadLoop, if_pos hp, hfp] at h
          exact ⟨by simp [itemOk, hp, hfp, isOkE], ih (acc ++ [en]) h⟩
      · rw [loadLoop, if_neg hp] at h
        refine ⟨by simp [itemOk, Bool.of_not_eq_true hp], ih acc h⟩

/-- C6: a directory load returns success only when every enumerated item
is clean (so the presence of any malformed considered `.conf` file makes
the whole load fail — no partial success is returned); and when the
items before a malformed considered file are clean, the resulting error
is `Error::Entry` wrapping that file's path together with the underlying
parse error. -/
theorem claim_C6_malformed_aborts_load :
    (∀ (prior : List Entry) (items : List (Except IoErr FsPath)),
        (load_entries prior (.ok items)).2 = .ok () → items.all itemOk = true)
    ∧ (∀ (prior : List Entry) (items1 : List (Except IoErr FsPath)) (p : FsPath)
        (err : EntryError) (items2 : List (Except IoErr FsPath)),
        items1.all itemOk = true → considered p = true → Entry.from_path p = .error err →
        (load_entries prior (.ok (items1 ++ .ok p :: items2))).2
          = .error (.Entry p.path err)) := by
  constructor
  · intro prior items h
    exact loadLoop_ok_all items [] h
  · intro prior items1 p err items2 hall hp herr
    show (loadLoop [] (items1 ++ .ok p :: items2)).2 = _
    rw [loadLoop_spec p err items2 hp herr items1 [] hall]

/-- Filesystem view of a well-formed entry file used by the directory
load witnesses. -/
def goodPath : FsPath :=
  ⟨"good.conf", true, some "conf", .valid "good", .ok [.ok "title Good", .ok "linux vmlinuz"]⟩

/-- Filesystem view of a malformed entry file (a `linux` key with no
value) used by the directory load witnesses. -/
def badPath : FsPath :=
  ⟨"bad.conf", true, some "conf", .valid "bad", .ok [.ok "title Bad", .ok "linux"]⟩

/-- Closed instantiation of C6: one valid and one malformed conf file;
the load fails with the malformed file's path and cause. -/
theorem claim_C6_witness :
    (load_entries [] (.ok ([.ok goodPath] ++ .ok badPath :: []))).2
      = .error (.Entry "bad.conf" .NoValueForLinux) :=
  claim_C6_malformed_aborts_load.2 [] [.ok goodPath] badPath .NoValueForLinux []
    (by rfl) (by rfl) (by rfl)

lemma loadLoop_fileEntry_spec (io : IoErr) (items2 : List (Except IoErr FsPath)) :
    ∀ (items1 : List (Except IoErr FsPath)) (acc : List Entry), items1.all itemOk = true →
    loadLoop acc (items1 ++ .error io :: items2)
      = (acc ++ itemEntries items1, .error (.FileEntry io)) := by
  intro items1
  induction items1 with
  | nil =>
    intro acc _
    show loadLoop acc (.error io :: items2) = (acc ++ itemEntries [], .error (.FileEntry io))
    simp only [loadLoop, itemEntries, List.append_nil]
  | cons x items1' ih =>
    intro acc hall
    rw [List.all_cons, Bool.and_eq_true] at hall
    obtain ⟨hx, hrest⟩ := hall
    cases x with
    | error e => simp [itemOk] at hx
    | ok q =>
      by_cases hq : considered q = true
      · have hok : isOkE (Entry.from_path q) = true := by
          simp only [itemOk, hq] at hx
          simpa using hx
        cases hfp : Entry.from_path q with
        | error e2 => rw [hfp] at hok; simp [isOkE] at hok
        | ok en =>
          show loadLoop acc (.ok q :: (items1' ++ .error io :: items2)) = _
          rw [loadLoop, if_pos hq, hfp]
          show loadLoop (acc ++ [en]) (items1' ++ .error io :: items2) = _
          rw [ih (acc ++ [en]) hrest]
          simp only [itemEntries, if_pos hq, hfp, List.append_assoc, List.singleton_append]
      · show loadLoop acc (.ok q :: (items1' ++ .error io :: items2)) = _
        rw [loadLoop, if_neg hq, ih acc hrest]
        simp only [itemEntries, if_neg hq]

/-- C10 (amended): the entries collection is cleared only after the
directory enumeration handle is obtained.  On a directory-open failure
the prior contents are retained unchanged together with the
`EntriesDir` error; once the directory opens, the result is independent
of the prior contents, and on a per-item enumeration failure
(`Error::FileEntry`) or a malformed considered file (`Error::Entry`)
the collection holds exactly the entries parsed successfully before the
failure. -/
theorem claim_C10_load_entries_state :
    (∀ (prior : List Entry) (e : IoErr),
        load_entries prior (.error e) = (prior, .error (.EntriesDir e)))
    ∧ (∀ (prior : List Entry) (items : List (Except IoErr FsPath)),
        (load_entries prior (.ok items)).1 = (load_entries [] (.ok items)).1)
    ∧ (∀ (prior : List Entry) (items1 : List (Except IoErr FsPath)) (p : FsPath)
        (err : EntryError) (items2 : List (Except IoErr FsPath)),
        items1.all itemOk = true → considered p = true → Entry.from_path p = .error err →
        (load_entries prior (.ok (items1 ++ .ok p :: items2))).1 = itemEntries items1)
    ∧ (∀ (prior : List Entry) (items1 : List (Except IoErr FsPath)) (io : IoErr)
        (items2 : List (Except IoErr FsPath)),
        items1.all itemOk = true →
        load_entries prior (.ok (items1 ++ .error io :: items2))
          = (itemEntries items1, .error (.FileEntry io))) := by
  refine ⟨fun _ _ => rfl, fun _ _ => rfl, ?_, ?_⟩
  · intro prior items1 p err items2 hall hp herr
    show (loadLoop [] (items1 ++ .ok p :: items2)).1 = _
    rw [loadLoop_spec p err items2 hp herr items1 [] hall]
    simp
  · intro prior items1 io items2 hall
    show loadLoop [] (items1 ++ .error io :: items2) = _
    rw [loadLoop_fileEntry_spec io items2 items1 [] hall]
    simp

/-- Counterexample to C10 as stated: with a non-empty prior collection
and a failing directory open, the operation returns an error yet the
collection still holds the prior entry — it was not cleared, and it does
not hold exactly the entries parsed before the failure (none). -/
theorem claim_C10_counterexample :
    (load_entries [⟨"old", none, "vmlinuz", [], "Old"⟩] (.error "permission denied")).2
        = .error (.EntriesDir "permission denied")
    ∧ (load_entries [⟨"old", none, "vmlinuz", [], "Old"⟩] (.error "permission denied")).1
        ≠ [] :=
  ⟨rfl, by decide⟩

/-- Closed instantiation of C10's amended statement: after a successful
directory open, a prior entry is discarded and the collection holds
exactly the entries parsed before the failure — both for a malformed
conf file and for a per-item enumeration failure. -/
theorem claim_C10_witness :
    (load_entries [⟨"old", none, "vmlinuz", [], "Old"⟩]
        (.ok ([.ok goodPath] ++ .ok badPath :: []))).1 = itemEntries [.ok goodPath]
    ∧ load_entries [⟨"old", none, "vmlinuz", [], "Old"⟩]
        (.ok ([.ok goodPath] ++ .error "interrupted" :: []))
      = (itemEntries [.ok goodPath], .error (.FileEntry "interrupted")) :=
  ⟨claim_C10_load_entries_state.2.2.1 [⟨"old", none, "vmlinuz", [], "Old"⟩]
      [.ok goodPath] badPath .NoValueForLinux [] (by rfl) (by rfl) (by rfl),
   claim_C10_load_entries_state.2.2.2 [⟨"old", none, "vmlinuz", [], "Old"⟩]
      [.ok goodPath] "interrupted" [] (by rfl)⟩

/-- C7 (amended): a `File::create` failure or a failure of the buffered
writes surfaces as the corresponding typed write error
(`LoaderWrite` / `EntryWrite`), and when create and writes succeed the
operation returns success — for every outcome of the final flush, which
happens when the `BufWriter` is dropped and whose failure is ignored. -/
theorem claim_C7_write_error_plumbing :
    (∀ (e : IoErr) (wr f : Except IoErr Unit),
        overwrite_loader_conf ⟨.error e, wr, f⟩ = .error (.LoaderWrite e))
    ∧ (∀ (e : IoErr) (f : Except IoErr Unit),
        overwrite_loader_conf ⟨.ok (), .error e, f⟩ = .error (.LoaderWrite e))
    ∧ (∀ f : Except IoErr Unit, overwrite_loader_conf ⟨.ok (), .ok (), f⟩ = .ok ())
    ∧ (∀ (entries : List Entry) (name : String) (en : Entry) (e : IoErr)
        (wr f : Except IoErr Unit),
        entries.find? (fun x => x.id == name) = some en →
        overwrite_entry_conf entries name ⟨.error e, wr, f⟩ = .error (.EntryWrite e))
    ∧ (∀ (entries : List Entry) (name : String) (en : Entry) (e : IoErr)
        (f : Except IoErr Unit),
        entries.find? (fun x => x.id == name) = some en →
        overwrite_entry_conf entries name ⟨.ok (), .error e, f⟩ = .error (.EntryWrite e))
    ∧ (∀ (entries : List Entry) (name : String) (en : Entry) (f : Except IoErr Unit),
        entries.find? (fun x => x.id == name) = some en →
        overwrite_entry_conf entries name ⟨.ok (), .ok (), f⟩ = .ok ()) := by
  refine ⟨fun _ _ _ => rfl, fun _ _ => rfl, fun _ => rfl, ?_, ?_, ?_⟩
  · intro entries name en e wr f hf
    unfold overwrite_entry_conf
    rw [hf]
    rfl
  · intro entries name en e f hf
    unfold overwrite_entry_conf
    rw [hf]
    rfl
  · intro entries name en f hf
    unfold overwrite_entry_conf
    rw [hf]
    rfl

/-- Closed instantiation of C7's amended statement: with the entry
present, create and writes succeeding, and a failing flush, the entry
write-back still returns success. -/
theorem claim_C7_witness :
    overwrite_entry_conf [⟨"pop", none, "vmlinuz", [], "Pop"⟩] "pop"
        ⟨.ok (), .ok (), .error "disk full"⟩ = .ok () :=
  claim_C7_write_error_plumbing.2.2.2.2.2 [⟨"pop", none, "vmlinuz", [], "Pop"⟩] "pop"
    ⟨"pop", none, "vmlinuz", [], "Pop"⟩ (.error "disk full") (by rfl)

/-- Counterexample to C7 as stated: a failing final flush is an
underlying write failure, yet the loader write-back returns success —
the flush happens during the `BufWriter` drop and its error is
discarded. -/
theorem claim_C7_counterexample :
    overwrite_loader_conf ⟨.ok (), .ok (), .error "disk full"⟩ = .ok ()
    ∧ (⟨.ok (), .ok (), .error "disk full"⟩ : WriteWorld).flushResult ≠ .ok () :=
  ⟨rfl, fun h => Except.noConfusion h⟩

end SystemdBootConf

namespace SystemdBootConf

lemma fromLines_of_loop (id : String) (lines : List (Except IoErr String)) (en : Entry)
    (h : Entry.parseLoop (Entry.init id) lines = .ok en)
    (h1 : ¬en.title = "") (h2 : ¬en.linux = "") :
    Entry.fromLines id lines = .ok en := by
  unfold Entry.fromLines
  rw [h]
  show (if en.title = "" then Except.error EntryError.MisisngTitle
      else if en.linux = "" then Except.error EntryError.MissingLinux
      else Except.ok en) = Except.ok en
  rw [if_neg h1, if_neg h2]

/-- Counterexample to C2 as stated: the entry parsed from
`title Pop / linux vmlinuz / options quiet` serializes with the line
`options: quiet`, whose key `options:` the parser does not recognize, so
re-parsing yields an empty options sequence — the `options` fields are
not equal. -/
theorem claim_C2_counterexample :
    Entry.fromLines "b" [.ok "title Pop", .ok "linux vmlinuz", .ok "options quiet"]
        = .ok ⟨"b", none, "vmlinuz", ["quiet"], "Pop"⟩
    ∧ Entry.fromLines "b"
        ((Entry.serializeLines ⟨"b", none, "vmlinuz", ["quiet"], "Pop"⟩).map Except.ok)
        = .ok ⟨"b", none, "vmlinuz", [], "Pop"⟩
    ∧ (⟨"b", none, "vmlinuz", [], "Pop"⟩ : Entry).options
        ≠ (⟨"b", none, "vmlinuz", ["quiet"], "Pop"⟩ : Entry).options :=
  ⟨rfl, rfl, by decide⟩

/-- C2 (amended): serializing any successfully parsed entry and
re-parsing succeeds and returns the same `id`, `title`, `linux` and
`initrd`; the re-parsed `options` sequence is always empty, because the
writer emits the key as `options:` while the parser recognizes only
`options` — so `options` round-trips exactly when it was empty. -/
theorem claim_C2_roundtrip_amended (id : String) (lines : List (Except IoErr String))
    (e : Entry) (h : Entry.fromLines id lines = .ok e) :
    Entry.fromLines e.id ((Entry.serializeLines e).map Except.ok)
      = .ok { id := e.id, initrd := e.initrd, linux := e.linux, options := [],
              title := e.title } := by
  obtain ⟨inv, htne, hlne, _⟩ := fromLines_ok id lines e h
  obtain ⟨ts, hts, htitle⟩ := inv.title_join
  have hts_ne : ts ≠ [] := by
    intro hnil
    apply htne
    rw [htitle, hnil]
    rfl
  have hlin : IsToken e.linux := (inv.linux_tok).resolve_left hlne
  have s1 : Entry.parseLine (Entry.init e.id) ("title " ++ e.title)
      = .ok ⟨e.id, none, "", [], e.title⟩ := by
    rw [htitle]
    exact parseLine_title _ ts hts hts_ne
  have s2 : Entry.parseLine ⟨e.id, none, "", [], e.title⟩ ("linux " ++ e.linux)
      = .ok ⟨e.id, none, e.linux, [], e.title⟩ := parseLine_linux _ _ hlin
  rcases hinit : e.initrd with _ | v
  · rcases hopt : e.options with _ | ⟨o, os⟩
    · have hser : Entry.serializeLines e = ["title " ++ e.title, "linux " ++ e.linux] := by
        simp [Entry.serializeLines, hinit, hopt]
      rw [hser]
      simp only [List.map_cons, List.map_nil]
      refine fromLines_of_loop _ _ _ ?_ htne hlne
      rw [parseLoop_step _ _ _ _ s1, parseLoop_step _ _ _ _ s2]
      rfl
    · have s4 : Entry.parseLine ⟨e.id, none, e.linux, [], e.title⟩
          ("options: " ++ joinSpace e.options) = .ok ⟨e.id, none, e.linux, [], e.title⟩ := by
        refine parseLine_optcolon _ _ inv.options_tok ?_
        rw [hopt]
        simp
      have hser : Entry.serializeLines e
          = ["title " ++ e.title, "linux " ++ e.linux,
             "options: " ++ joinSpace e.options] := by
        simp [Entry.serializeLines, hinit, hopt]
      rw [hser]
      simp only [List.map_cons, List.map_nil]
      refine fromLines_of_loop _ _ _ ?_ htne hlne
      rw [parseLoop_step _ _ _ _ s1, parseLoop_step _ _ _ _ s2, parseLoop_step _ _ _ _ s4]
      rfl
  · have hv : IsToken v := by
      rcases inv.initrd_tok with h0 | ⟨t, ht, hsome⟩
      · rw [h0] at hinit; cases hinit
      · rw [hsome] at hinit
        injection hinit with hh
        subst hh
        exact ht
    have s3 : Entry.parseLine ⟨e.id, none, e.linux, [], e.title⟩ ("initrd " ++ v)
        = .ok ⟨e.id, some v, e.linux, [], e.title⟩ := parseLine_initrd _ _ hv
    rcases hopt : e.options with _ | ⟨o, os⟩
    · have hser : Entry.serializeLines e
          = ["title " ++ e.title, "linux " ++ e.linux, "initrd " ++ v] := by
        simp [Entry.serializeLines, hinit, hopt]
      rw [hser]
      simp only [List.map_cons, List.map_nil]
      refine fromLines_of_loop _ _ _ ?_ htne hlne
      rw [parseLoop_step _ _ _ _ s1, parseLoop_step _ _ _ _ s2, parseLoop_step _ _ _ _ s3]
      rfl
    · have s4 : Entry.parseLine ⟨e.id, some v, e.linux, [], e.title⟩
          ("options: " ++ joinSpace e.options) = .ok ⟨e.id, some v, e.linux, [], e.title⟩ := by
        refine parseLine_optcolon _ _ inv.options_tok ?_
        rw [hopt]
        simp
      have hser : Entry.serializeLines e
          = ["title " ++ e.title, "linux " ++ e.linux, "initrd " ++ v,
             "options: " ++ joinSpace e.options] := by
        simp [Entry.serializeLines, hinit, hopt]
      rw [hser]
      simp only [List.map_cons, List.map_nil]
      refine fromLines_of_loop _ _ _ ?_ htne hlne
      rw [parseLoop_step _ _ _ _ s1, parseLoop_step _ _ _ _ s2, parseLoop_step _ _ _ _ s3,
        parseLoop_step _ _ _ _ s4]
      rfl

/-- Closed instantiation of C2's amended statement on a concrete parse:
both the serialization and the re-parse are evaluated. -/
theorem claim_C2_witness :
    Entry.fromLines "pop" ((Entry.serializeLines
        ⟨"pop", some "/boot/initrd.img", "vmlinuz", ["quiet", "splash"], "Pop OS"⟩).map
        Except.ok)
      = .ok ⟨"pop", some "/boot/initrd.img", "vmlinuz", [], "Pop OS"⟩ :=
  claim_C2_roundtrip_amended "pop"
    [.ok "title Pop OS", .ok "linux vmlinuz", .ok "initrd /boot/initrd.img",
     .ok "options quiet splash"]
    ⟨"pop", some "/boot/initrd.img", "vmlinuz", ["quiet", "splash"], "Pop OS"⟩ (by rfl)

end SystemdBootConf
